import Mathlib

/-!
Shallow embedding of the synthetic data generator (`data-generator/generator.py`):
a loop that repeatedly picks one of three database operations by weighted random
selection, runs it in a transaction, commits or rolls back, and reconnects on
failure.  Randomness, wall-clock time and connection failures are supplied by
explicit oracle inputs; the database is an explicit in-memory state.
-/

namespace Generator

/-- The five order statuses declared in `ORDER_STATUSES`. -/
inductive OrderStatus
  | pending
  | processing
  | shipped
  | delivered
  | cancelled
deriving DecidableEq, Repr

open OrderStatus

/-- The list `ORDER_STATUSES` of the script: pending, processing, shipped,
delivered, cancelled. -/
def ORDER_STATUSES : List OrderStatus :=
  [pending, processing, shipped, delivered, cancelled]

/-- A row of the `customers` table: `customers(id, name, email UNIQUE)`. -/
structure Customer where
  id : Nat
  name : String
  email : String
deriving DecidableEq, Repr

/-- A row of the `orders` table:
`orders(id, customer_id FK, order_date, total_amount, status, updated_at)`.
Timestamps are abstract instants (`Nat`); `updated_at` is NULL until the first
update.  `total_amount` is modelled as a rational. -/
structure Order where
  id : Nat
  customer_id : Nat
  order_date : Nat
  total_amount : ℚ
  status : OrderStatus
  updated_at : Option Nat
deriving DecidableEq, Repr

/-- The database state: both tables plus the next value of each serial key. -/
structure DB where
  customers : List Customer
  orders : List Order
  nextCustomerId : Nat
  nextOrderId : Nat
deriving DecidableEq, Repr

/-- Round half to even on rationals: the rounding mode of Python `round`. -/
def roundHalfEven (x : ℚ) : ℤ :=
  if Int.fract x < 1/2 then ⌊x⌋
  else if 1/2 < Int.fract x then ⌊x⌋ + 1
  else if Even ⌊x⌋ then ⌊x⌋ else ⌊x⌋ + 1

/-- Python `round(x, 2)` on the rational model of the amount. -/
def pyRound2 (x : ℚ) : ℚ := (roundHalfEven (x * 100) : ℚ) / 100

/-- Model of `get_random_customer_id`: SELECT id FROM customers ORDER BY
RANDOM() LIMIT 1, where `pick` is the oracle for the random ordering.  Returns
`none` on an empty table. -/
def get_random_customer_id (db : DB) (pick : Nat) : Option Nat :=
  if h : db.customers.length = 0 then none
  else
    some (db.customers.get
      ⟨pick % db.customers.length, Nat.mod_lt _ (Nat.pos_of_ne_zero h)⟩).id

/-- Model of `insert_order`: a uniformly drawn raw amount
(`amountRaw`, the oracle for `random.uniform(10.0, 1000.0)`) rounded to two
decimal places, a random status (`statusPick`, the oracle for
`random.choice(ORDER_STATUSES)`), the current timestamp `now`
(`datetime.now()`), inserted with a fresh serial id which is returned. -/
def insert_order (db : DB) (customer_id : Nat) (amountRaw : ℚ) (statusPick : Fin 5)
    (now : Nat) : DB × Nat :=
  let total_amount := pyRound2 amountRaw
  let status := ORDER_STATUSES.get (Fin.cast rfl statusPick)
  let row : Order :=
    { id := db.nextOrderId, customer_id := customer_id, order_date := now,
      total_amount := total_amount, status := status, updated_at := none }
  ({ db with orders := db.orders ++ [row], nextOrderId := db.nextOrderId + 1 },
   db.nextOrderId)

/-- Whether a status matches the SQL filter of `update_random_order`, namely
status IN (pending, processing, shipped). -/
def updatableStatus : OrderStatus → Bool
  | pending => true
  | processing => true
  | shipped => true
  | delivered => false
  | cancelled => false

/-- The statuses an update draws its new status from: processing, shipped,
delivered. -/
def NEW_STATUSES : List OrderStatus := [processing, shipped, delivered]

/-- Model of `update_random_order`: select one random order whose status is in
`{pending, processing, shipped}` (`pick` is the oracle for the random ordering),
set its status to a random element of `NEW_STATUSES` (`statusPick`) and its
`updated_at` to `now`; return its id, or `None` when no order is eligible. -/
def update_random_order (db : DB) (pick : Nat) (statusPick : Fin 3) (now : Nat) :
    DB × Option Nat :=
  let eligible := db.orders.filter (fun o => updatableStatus o.status)
  if h : eligible.length = 0 then (db, none)
  else
    let order_id :=
      (eligible.get ⟨pick % eligible.length, Nat.mod_lt _ (Nat.pos_of_ne_zero h)⟩).id
    let new_status := NEW_STATUSES.get (Fin.cast rfl statusPick)
    ({ db with orders := db.orders.map (fun o =>
        if o.id = order_id then { o with status := new_status, updated_at := some now }
        else o) },
     some order_id)

/-- Model of `insert_customer`: insert a faker-generated name and email with a
fresh serial id and return the id; a duplicate email raises `IntegrityError`
against the UNIQUE constraint, which is caught and turned into `None` with no
row created. -/
def insert_customer (db : DB) (name email : String) : DB × Option Nat :=
  if db.customers.any (fun c => c.email = email) then (db, none)
  else
    let row : Customer := { id := db.nextCustomerId, name := name, email := email }
    ({ db with customers := db.customers ++ [row],
               nextCustomerId := db.nextCustomerId + 1 },
     some db.nextCustomerId)

/-- The three operations `random.choices` draws from in `main`. -/
inductive Operation
  | insert_order
  | update_order
  | insert_customer
deriving DecidableEq, Repr

/-- Model of the weighted draw in `main`, which calls random.choices over the
three operation names with weights 60, 30 and 10: a uniform draw `r` over 100
mass units mapped through the cumulative weights 60, 90, 100. -/
def chooseOperation (r : Fin 100) : Operation :=
  if r.val < 60 then Operation.insert_order
  else if r.val < 90 then Operation.update_order
  else Operation.insert_customer

/-- The oracle inputs consumed by one tick of the main loop: the weighted draw,
the random picks, the faker outputs, the current time, and whether an exception
(query error, connection loss, commit failure) strikes the tick. -/
structure TickInput where
  opDraw : Fin 100
  custPick : Nat
  amountRaw : ℚ
  statusPick : Fin 5
  orderPick : Nat
  newStatusPick : Fin 3
  custName : String
  custEmail : String
  now : Nat
  fail : Bool
deriving DecidableEq, Repr

/-- The loop-local state of `main`: the database visible after the last commit
or rollback, the `operation_count` counter, and a generation counter for the
connection (bumped each time the connection is replaced via
`get_db_connection`). -/
structure LoopState where
  db : DB
  operation_count : Nat
  connGen : Nat
deriving DecidableEq, Repr

/-- The operation dispatch inside one tick of `main`: the body of the
`if operation == ...` chain.  `insert_order` is skipped when
`get_random_customer_id` returns a falsy value (Python `if customer_id:`). -/
def runOperation (db : DB) (inp : TickInput) : DB :=
  match chooseOperation inp.opDraw with
  | Operation.insert_order =>
    match get_random_customer_id db inp.custPick with
    | some cid =>
      if cid ≠ 0 then (insert_order db cid inp.amountRaw inp.statusPick inp.now).1
      else db
    | none => db
  | Operation.update_order =>
    (update_random_order db inp.orderPick inp.newStatusPick inp.now).1
  | Operation.insert_customer =>
    (insert_customer db inp.custName inp.custEmail).1

/-- One tick of the `while True` loop of `main`.  On an exception the
transaction is rolled back (the committed database is unchanged), the
connection is closed and replaced by a fresh one, and the loop moves on; on
success the transaction commits and `operation_count` is incremented. -/
def tick (s : LoopState) (inp : TickInput) : LoopState :=
  if inp.fail then { s with connGen := s.connGen + 1 }
  else
    { s with db := runOperation s.db inp,
             operation_count := s.operation_count + 1 }

/-- Running the main loop over a finite prefix of tick inputs. -/
def runTicks (s : LoopState) (inps : List TickInput) : LoopState :=
  List.foldl tick s inps

/-- Model of `get_db_connection`: retry the connection forever, sleeping 5 seconds
after each failure.  `outs` is the oracle listing the outcome of each attempt;
the result is the index of the first successful attempt together with the total
time slept, or `none` when every listed attempt fails (the loop is still
retrying — there is no error return). -/
def get_db_connection : List Bool → Option (Nat × Nat)
  | [] => none
  | true :: _ => some (0, 0)
  | false :: rest =>
    match get_db_connection rest with
    | some (i, s) => some (i + 1, s + 5)
    | none => none

/-! ### Concrete fixtures used by the closed witnesses -/

/-- A small concrete database: one customer, one pending and one delivered order. -/
def dbW : DB :=
  { customers := [{ id := 1, name := "Ann", email := "ann@example.com" }],
    orders := [{ id := 1, customer_id := 1, order_date := 2, total_amount := 20,
                 status := OrderStatus.pending, updated_at := none },
               { id := 2, customer_id := 1, order_date := 3, total_amount := 30,
                 status := OrderStatus.delivered, updated_at := none }],
    nextCustomerId := 2, nextOrderId := 3 }

/-- An empty database. -/
def dbEmpty : DB :=
  { customers := [], orders := [], nextCustomerId := 1, nextOrderId := 1 }

/-- A loop state over `dbW`. -/
def stateW : LoopState := { db := dbW, operation_count := 4, connGen := 0 }

/-- A loop state over the empty database. -/
def stateEmpty : LoopState := { db := dbEmpty, operation_count := 5, connGen := 0 }

/-- A concrete tick input; `r` selects the weighted draw and `b` whether the
tick raises an exception. -/
def inputW (r : Fin 100) (b : Bool) : TickInput :=
  { opDraw := r, custPick := 0, amountRaw := 500, statusPick := 0,
    orderPick := 0, newStatusPick := 0, custName := "Bob",
    custEmail := "ann@example.com", now := 9, fail := b }

/-! ### C1: exception during a tick -/

/-- Claim C1: when an exception is raised during the operation or commit of a
tick, the in-flight transaction is rolled back (the committed database is
unchanged), the connection is closed and replaced by a fresh one, the loop
continues with the next tick, and the operation is not retried in the same
tick (`operation_count` does not move). -/
theorem tick_exception_recovery (s : LoopState) (inp : TickInput)
    (rest : List TickInput) (h : inp.fail = true) :
    (tick s inp).db = s.db ∧
    (tick s inp).operation_count = s.operation_count ∧
    (tick s inp).connGen = s.connGen + 1 ∧
    runTicks s (inp :: rest) = runTicks (tick s inp) rest := by
  refine ⟨?_, ?_, ?_, rfl⟩ <;> simp [tick, h]

/-- Closed witness for C1 at a concrete state and a failing tick input. -/
theorem tick_exception_recovery_witness :
    (tick stateW (inputW 0 true)).db = stateW.db ∧
    (tick stateW (inputW 0 true)).operation_count = stateW.operation_count ∧
    (tick stateW (inputW 0 true)).connGen = stateW.connGen + 1 ∧
    runTicks stateW (inputW 0 true :: []) = runTicks (tick stateW (inputW 0 true)) [] :=
  tick_exception_recovery stateW (inputW 0 true) [] rfl

/-! ### C2: weighted choice of exactly one operation per tick -/

/-- Claim C2: every tick draws exactly one of the three operations, and over
the 100 equally likely mass units of the weighted draw, `insert_order` is
chosen on 60, `update_order` on 30 and `insert_customer` on 10. -/
theorem chooseOperation_weights :
    (∀ r : Fin 100,
      (chooseOperation r = Operation.insert_order ∧
        chooseOperation r ≠ Operation.update_order ∧
        chooseOperation r ≠ Operation.insert_customer) ∨
      (chooseOperation r ≠ Operation.insert_order ∧
        chooseOperation r = Operation.update_order ∧
        chooseOperation r ≠ Operation.insert_customer) ∨
      (chooseOperation r ≠ Operation.insert_order ∧
        chooseOperation r ≠ Operation.update_order ∧
        chooseOperation r = Operation.insert_customer)) ∧
    (Finset.univ.filter
      (fun r : Fin 100 => chooseOperation r = Operation.insert_order)).card = 60 ∧
    (Finset.univ.filter
      (fun r : Fin 100 => chooseOperation r = Operation.update_order)).card = 30 ∧
    (Finset.univ.filter
      (fun r : Fin 100 => chooseOperation r = Operation.insert_customer)).card = 10 := by
  decide

/-! ### C6: insert_order tick with no customers -/

/-- Claim C6: a tick whose drawn operation is `insert_order`, run against a
database with no customers, inserts no row (the database is unchanged) and
raises nothing — the tick still commits and is counted. -/
theorem insert_order_skipped_without_customers (s : LoopState) (inp : TickInput)
    (hc : s.db.customers = []) (hop : chooseOperation inp.opDraw = Operation.insert_order)
    (hf : inp.fail = false) :
    (tick s inp).db = s.db ∧
    (tick s inp).operation_count = s.operation_count + 1 := by
  have h0 : s.db.customers.length = 0 := by rw [hc]; rfl
  constructor
  · simp [tick, hf, runOperation, hop, get_random_customer_id, h0]
  · simp [tick, hf]

/-- Closed witness for C6: the empty database, a draw that selects
`insert_order`. -/
theorem insert_order_skipped_without_customers_witness :
    (tick stateEmpty (inputW 0 false)).db = stateEmpty.db ∧
    (tick stateEmpty (inputW 0 false)).operation_count =
      stateEmpty.operation_count + 1 :=
  insert_order_skipped_without_customers stateEmpty (inputW 0 false) rfl rfl rfl

/-! ### C7: update_random_order with no eligible order -/

/-- Claim C7: when every order is delivered or cancelled, or there are no
orders at all, `update_random_order` mutates nothing, returns `None`, and
raises nothing. -/
theorem update_random_order_no_eligible (db : DB) (pick : Nat) (sp : Fin 3)
    (now : Nat) (h : ∀ o ∈ db.orders, updatableStatus o.status = false) :
    update_random_order db pick sp now = (db, none) := by
  have hfil : db.orders.filter (fun o => updatableStatus o.status) = [] := by
    rw [List.filter_eq_nil_iff]
    intro o ho
    simp [h o ho]
  simp [update_random_order, hfil]

/-- Closed witness for C7 on the empty database. -/
theorem update_random_order_no_eligible_witness :
    update_random_order dbEmpty 0 0 9 = (dbEmpty, none) :=
  update_random_order_no_eligible dbEmpty 0 0 9 (by decide)

/-! ### C8: duplicate email on insert_customer -/

/-- Claim C8: when the generated email already exists, the uniqueness
violation is caught inside `insert_customer`: no row is created, the call
returns `None` instead of raising, and the tick still commits and counts, so
the process continues. -/
theorem insert_customer_duplicate_email (db : DB) (nm em : String)
    (h : ∃ c ∈ db.customers, c.email = em) :
    insert_customer db nm em = (db, none) ∧
    ∀ s inp, s.db = db → inp.fail = false →
      chooseOperation inp.opDraw = Operation.insert_customer →
      inp.custEmail = em →
      (tick s inp).db = db ∧
      (tick s inp).operation_count = s.operation_count + 1 := by
  have hany : db.customers.any (fun c => c.email = em) = true := by
    obtain ⟨c, hc, he⟩ := h
    exact List.any_eq_true.mpr ⟨c, hc, by simp [he]⟩
  refine ⟨by simp [insert_customer, hany], ?_⟩
  intro s inp hs hf hop hem
  constructor
  · simp [tick, hf, runOperation, hop, insert_customer, hs, hem, hany]
  · simp [tick, hf]

/-- Closed witness for C8: inserting `ann@example.com` into `dbW` again. -/
theorem insert_customer_duplicate_email_witness :
    insert_customer dbW "Bob" "ann@example.com" = (dbW, none) ∧
    (tick stateW (inputW 95 false)).db = dbW ∧
    (tick stateW (inputW 95 false)).operation_count = stateW.operation_count + 1 := by
  have h := insert_customer_duplicate_email dbW "Bob" "ann@example.com"
    ⟨{ id := 1, name := "Ann", email := "ann@example.com" }, by decide, rfl⟩
  exact ⟨h.1, h.2 stateW (inputW 95 false) rfl rfl (by decide) rfl⟩

/-! ### C9: get_db_connection retries forever and never errors -/

/-- Helper: the connection loop yields nothing exactly when every attempt so
far failed — it is still retrying, not reporting an error. -/
lemma get_db_connection_none_iff (outs : List Bool) :
    get_db_connection outs = none ↔ ∀ b ∈ outs, b = false := by
  induction outs with
  | nil => simp [get_db_connection]
  | cons b rest ih =>
    cases b with
    | true => simp [get_db_connection]
    | false =>
      cases hrec : get_db_connection rest with
      | none =>
        have hall := ih.mp hrec
        simp [get_db_connection, hrec]
        intro htrue
        exact Bool.noConfusion (hall true htrue)
      | some p =>
        obtain ⟨i, t⟩ := p
        simp only [get_db_connection, hrec]
        constructor
        · intro hcontr; cases hcontr
        · intro hall
          have hnone : get_db_connection rest = none :=
            ih.mpr (fun c hc => hall c (List.mem_cons_of_mem _ hc))
          rw [hnone] at hrec
          cases hrec

/-- Claim C9: `get_db_connection` never returns an error: as long as every
attempt fails it is still sleeping 5 seconds and retrying (no result yet), and
it returns exactly at the first successful attempt, having slept 5 seconds for
each of the preceding failures. -/
theorem get_db_connection_spec (outs : List Bool) (i t : Nat)
    (h : get_db_connection outs = some (i, t)) :
    (∀ pre : List Bool, (∀ b ∈ pre, b = false) → get_db_connection pre = none) ∧
    t = 5 * i ∧
    ∃ hi : i < outs.length, outs.get ⟨i, hi⟩ = true ∧
      ∀ j (hj : j < outs.length), j < i → outs.get ⟨j, hj⟩ = false := by
  refine ⟨fun pre hpre => (get_db_connection_none_iff pre).mpr hpre, ?_⟩
  induction outs generalizing i t with
  | nil => cases h
  | cons b rest ih =>
    cases b with
    | true =>
      simp only [get_db_connection, Option.some_inj] at h
      obtain ⟨rfl, rfl⟩ := (Prod.mk.injEq _ _ _ _).mp h.symm
      refine ⟨rfl, Nat.succ_pos _, rfl, ?_⟩
      intro j hj hji
      omega
    | false =>
      cases hrec : get_db_connection rest with
      | none =>
        rw [get_db_connection, hrec] at h
        cases h
      | some p =>
        obtain ⟨i0, t0⟩ := p
        rw [get_db_connection, hrec] at h
        obtain ⟨rfl, rfl⟩ := (Prod.mk.injEq _ _ _ _).mp (Option.some_inj.mp h).symm
        obtain ⟨ht0, hi0, hget, hprev⟩ := ih i0 t0 hrec
        refine ⟨by omega, Nat.succ_lt_succ hi0, hget, ?_⟩
        intro j hj hji
        cases j with
        | zero => rfl
        | succ j0 =>
          exact hprev j0 (Nat.lt_of_succ_lt_succ hj) (Nat.lt_of_succ_lt_succ hji)

/-- Closed witness for C9: two failures then a success gives index 2 after 10
seconds of sleep. -/
theorem get_db_connection_spec_witness :
    (∀ pre : List Bool, (∀ b ∈ pre, b = false) → get_db_connection pre = none) ∧
    10 = 5 * 2 ∧
    ∃ hi : 2 < [false, false, true].length, [false, false, true].get ⟨2, hi⟩ = true ∧
      ∀ j (hj : j < [false, false, true].length), j < 2 →
        [false, false, true].get ⟨j, hj⟩ = false :=
  get_db_connection_spec [false, false, true] 2 10 rfl

/-! ### C10: operation_count counts committed ticks -/

/-- Claim C10: every committed tick increments `operation_count` by exactly
one, whether or not it wrote a row, so after any run the counter equals the
starting counter plus the number of ticks that did not raise — the number of
committed ticks, not the number of database mutations. -/
theorem operation_count_eq_committed_ticks (s : LoopState) (inps : List TickInput) :
    (runTicks s inps).operation_count =
      s.operation_count + (inps.filter (fun inp => !inp.fail)).length := by
  induction inps generalizing s with
  | nil => simp [runTicks]
  | cons inp rest ih =>
    have hstep : runTicks s (inp :: rest) = runTicks (tick s inp) rest := rfl
    rw [hstep, ih (tick s inp)]
    cases hf : inp.fail with
    | true => simp [tick, hf, List.filter_cons]
    | false =>
      simp [tick, hf, List.filter_cons]
      omega

/-! ### C3: the row written by insert_order -/

/-- Rounding half to even never goes below the floor. -/
lemma roundHalfEven_ge_floor (x : ℚ) : ⌊x⌋ ≤ roundHalfEven x := by
  unfold roundHalfEven
  split_ifs <;> omega

/-- Rounding half to even never goes above the ceiling. -/
lemma roundHalfEven_le_ceil (x : ℚ) : roundHalfEven x ≤ ⌈x⌉ := by
  have hkey : ¬ Int.fract x < 1/2 → ⌊x⌋ + 1 ≤ ⌈x⌉ := by
    intro hge
    have h0 : (0 : ℚ) < Int.fract x := lt_of_lt_of_le (by norm_num) (not_lt.mp hge)
    have hf : Int.fract x = x - ⌊x⌋ := rfl
    rw [hf] at h0
    have hlt : (⌊x⌋ : ℚ) < x := by linarith
    exact Int.add_one_le_ceil_iff.mpr hlt
  unfold roundHalfEven
  split_ifs with h1 h2 h3
  · exact Int.floor_le_ceil x
  · exact hkey h1
  · exact Int.floor_le_ceil x
  · exact hkey h1

/-- The amount `round(random.uniform(10.0, 1000.0), 2)` stays in
`[10.00, 1000.00]` whenever the raw draw does. -/
lemma pyRound2_bounds (x : ℚ) (hlo : 10 ≤ x) (hhi : x ≤ 1000) :
    10 ≤ pyRound2 x ∧ pyRound2 x ≤ 1000 := by
  have h1 : (1000 : ℤ) ≤ ⌊x * 100⌋ := by
    apply Int.le_floor.mpr
    push_cast
    linarith
  have h2 : ⌈x * 100⌉ ≤ (100000 : ℤ) := by
    apply Int.ceil_le.mpr
    push_cast
    linarith
  have hlo2 : (1000 : ℤ) ≤ roundHalfEven (x * 100) :=
    le_trans h1 (roundHalfEven_ge_floor (x * 100))
  have hhi2 : roundHalfEven (x * 100) ≤ 100000 :=
    le_trans (roundHalfEven_le_ceil (x * 100)) h2
  have hlo3 : (1000 : ℚ) ≤ (roundHalfEven (x * 100) : ℚ) := by exact_mod_cast hlo2
  have hhi3 : (roundHalfEven (x * 100) : ℚ) ≤ 100000 := by exact_mod_cast hhi2
  unfold pyRound2
  constructor
  · rw [le_div_iff₀ (by norm_num : (0 : ℚ) < 100)]
    linarith
  · rw [div_le_iff₀ (by norm_num : (0 : ℚ) < 100)]
    linarith

/-- The postcondition of `insert_order` asserted by claim C3: the call appends
exactly one row and returns its id; the row carries the given customer, an
amount in `[10.00, 1000.00]` with exactly two decimal places, one of the five
declared statuses, and the insertion time as `order_date`. -/
def InsertOrderPost (db : DB) (customer_id : Nat) (amountRaw : ℚ)
    (statusPick : Fin 5) (now : Nat) : Prop :=
  ∃ row : Order,
    (insert_order db customer_id amountRaw statusPick now).1.orders =
      db.orders ++ [row] ∧
    (insert_order db customer_id amountRaw statusPick now).2 = row.id ∧
    row.customer_id = customer_id ∧
    10 ≤ row.total_amount ∧ row.total_amount ≤ 1000 ∧
    (∃ n : ℤ, row.total_amount = (n : ℚ) / 100) ∧
    row.status ∈ ORDER_STATUSES ∧
    row.order_date = now ∧
    row.updated_at = none

/-- Claim C3: every call of `insert_order` whose raw uniform draw lies in
`[10.0, 1000.0]` inserts one row whose `total_amount` is in `[10.00, 1000.00]`
rounded to exactly two decimal places, whose status is one of the five declared
values, and whose `order_date` is the time of insertion; the new id is
returned. -/
theorem insert_order_spec (db : DB) (cid : Nat) (amountRaw : ℚ) (sp : Fin 5)
    (now : Nat) (hlo : 10 ≤ amountRaw) (hhi : amountRaw ≤ 1000) :
    InsertOrderPost db cid amountRaw sp now := by
  obtain ⟨h1, h2⟩ := pyRound2_bounds amountRaw hlo hhi
  exact ⟨{ id := db.nextOrderId, customer_id := cid, order_date := now,
           total_amount := pyRound2 amountRaw,
           status := ORDER_STATUSES.get (Fin.cast rfl sp), updated_at := none },
         rfl, rfl, rfl, h1, h2, ⟨roundHalfEven (amountRaw * 100), rfl⟩,
         List.get_mem _ _ _, rfl, rfl⟩

/-- Closed witness for C3 at a concrete database and draw. -/
theorem insert_order_spec_witness :
    (10 : ℚ) ≤ 500 ∧ (500 : ℚ) ≤ 1000 ∧ InsertOrderPost dbW 1 500 0 9 :=
  ⟨by norm_num, by norm_num,
   insert_order_spec dbW 1 500 0 9 (by norm_num) (by norm_num)⟩

/-! ### C4: update_random_order with an eligible order -/

/-- The postcondition of `update_random_order` asserted by claim C4: one
eligible order is selected (and it is the only order bearing its id); the
result rewrites exactly that row, giving it a status drawn from `NEW_STATUSES`
and an `updated_at` that is at or after its prior `order_date`; every other
row is carried over unchanged. -/
def UpdateOrderPost (db : DB) (pick : Nat) (sp : Fin 3) (now : Nat) : Prop :=
  ∃ sel : Order,
    sel ∈ db.orders ∧
    updatableStatus sel.status = true ∧
    (update_random_order db pick sp now).2 = some sel.id ∧
    (∀ o ∈ db.orders, o.id = sel.id → o = sel) ∧
    (update_random_order db pick sp now).1.orders =
      db.orders.map (fun o =>
        if o.id = sel.id then
          { o with status := NEW_STATUSES.get (Fin.cast rfl sp),
                   updated_at := some now }
        else o) ∧
    NEW_STATUSES.get (Fin.cast rfl sp) ∈ NEW_STATUSES ∧
    sel.order_date ≤ now ∧
    { sel with status := NEW_STATUSES.get (Fin.cast rfl sp),
               updated_at := some now } ∈
      (update_random_order db pick sp now).1.orders ∧
    ∀ o ∈ db.orders, o.id ≠ sel.id → o ∈ (update_random_order db pick sp now).1.orders

/-- Claim C4: in a well-formed state holding at least one order with status in
`{pending, processing, shipped}`, and with the clock at or after every stored
`order_date`, `update_random_order` selects exactly one such order, moves it to
a status in `{processing, shipped, delivered}`, and stamps `updated_at` with a
time no earlier than the prior `order_date`. -/
theorem update_random_order_spec (db : DB) (pick : Nat) (sp : Fin 3) (now : Nat)
    (hnodup : (db.orders.map Order.id).Nodup)
    (hex : ∃ o ∈ db.orders, updatableStatus o.status = true)
    (hmono : ∀ o ∈ db.orders, o.order_date ≤ now) :
    UpdateOrderPost db pick sp now := by
  obtain ⟨o0, ho0, hu0⟩ := hex
  have hne : (db.orders.filter (fun o => updatableStatus o.status)).length ≠ 0 := by
    intro hlen
    have hnil : db.orders.filter (fun o => updatableStatus o.status) = [] :=
      List.length_eq_zero.mp hlen
    have := List.filter_eq_nil_iff.mp hnil o0 ho0
    simp [hu0] at this
  set eligible := db.orders.filter (fun o => updatableStatus o.status) with helig
  set sel :=
    eligible.get ⟨pick % eligible.length, Nat.mod_lt _ (Nat.pos_of_ne_zero hne)⟩
    with hseldef
  have hselmem : sel ∈ eligible := List.get_mem _ _ _
  have hselOrders : sel ∈ db.orders := by
    have := List.mem_filter.mp (helig ▸ hselmem)
    exact this.1
  have hselUpd : updatableStatus sel.status = true := by
    have := List.mem_filter.mp (helig ▸ hselmem)
    simpa using this.2
  have heq : update_random_order db pick sp now =
      ({ db with orders := db.orders.map (fun o =>
          if o.id = sel.id then
            { o with status := NEW_STATUSES.get (Fin.cast rfl sp),
                     updated_at := some now }
          else o) }, some sel.id) := by
    rw [update_random_order, dif_neg hne]
  refine ⟨sel, hselOrders, hselUpd, ?_, ?_, ?_, List.get_mem _ _ _,
          hmono sel hselOrders, ?_, ?_⟩
  · rw [heq]
  · exact fun o ho hid => List.inj_on_of_nodup_map hnodup ho hselOrders hid
  · rw [heq]
  · rw [heq]
    exact List.mem_map.mpr ⟨sel, hselOrders, by simp⟩
  · intro o ho hneid
    rw [heq]
    exact List.mem_map.mpr ⟨o, ho, if_neg hneid⟩

/-- Closed witness for C4 on `dbW`, whose pending order is eligible. -/
theorem update_random_order_spec_witness :
    (dbW.orders.map Order.id).Nodup ∧
    (∃ o ∈ dbW.orders, updatableStatus o.status = true) ∧
    (∀ o ∈ dbW.orders, o.order_date ≤ 9) ∧
    UpdateOrderPost dbW 0 0 9 :=
  ⟨by decide, by decide, by decide,
   update_random_order_spec dbW 0 0 9 (by decide) (by decide) (by decide)⟩

/-! ### C5: delivered and cancelled are terminal -/

/-- Well-formedness the generator maintains on the orders table: ids are
pairwise distinct and below the next serial value. -/
def WFdb (db : DB) : Prop :=
  (db.orders.map Order.id).Nodup ∧ ∀ o ∈ db.orders, o.id < db.nextOrderId

/-- The ids and the serial counter of the orders table after
`update_random_order` are those before it. -/
lemma update_random_order_ids (db : DB) (pick : Nat) (sp : Fin 3) (now : Nat) :
    (update_random_order db pick sp now).1.orders.map Order.id =
      db.orders.map Order.id ∧
    (update_random_order db pick sp now).1.nextOrderId = db.nextOrderId := by
  by_cases hlen : (db.orders.filter (fun o => updatableStatus o.status)).length = 0
  · rw [update_random_order, dif_pos hlen]
    exact ⟨rfl, rfl⟩
  · rw [update_random_order, dif_neg hlen]
    refine ⟨?_, rfl⟩
    rw [List.map_map]
    refine List.map_congr_left (fun o _ => ?_)
    simp only [Function.comp_apply]
    split <;> rfl

/-- Inserting an order preserves well-formedness. -/
lemma WFdb_insert_order (db : DB) (cid : Nat) (raw : ℚ) (sp : Fin 5) (now : Nat)
    (h : WFdb db) : WFdb (insert_order db cid raw sp now).1 := by
  obtain ⟨hnd, hlt⟩ := h
  constructor
  · simp only [insert_order, List.map_append, List.map_cons, List.map_nil]
    rw [List.nodup_append]
    refine ⟨hnd, List.nodup_singleton _, ?_⟩
    intro a ha hb
    simp only [List.mem_singleton] at hb
    subst hb
    obtain ⟨o, ho, hid⟩ := List.mem_map.mp ha
    exact absurd hid (Nat.ne_of_lt (hlt o ho))
  · intro o ho
    simp only [insert_order] at ho ⊢
    rcases List.mem_append.mp ho with h1 | h1
    · exact Nat.lt_succ_of_lt (hlt o h1)
    · simp only [List.mem_singleton] at h1
      subst h1
      exact Nat.lt_succ_self _

/-- Updating an order preserves well-formedness. -/
lemma WFdb_update_random_order (db : DB) (pick : Nat) (sp : Fin 3) (now : Nat)
    (h : WFdb db) : WFdb (update_random_order db pick sp now).1 := by
  obtain ⟨hids, hnext⟩ := update_random_order_ids db pick sp now
  obtain ⟨hnd, hlt⟩ := h
  refine ⟨hids ▸ hnd, ?_⟩
  intro o ho
  have : o.id ∈ (update_random_order db pick sp now).1.orders.map Order.id :=
    List.mem_map.mpr ⟨o, ho, rfl⟩
  rw [hids] at this
  obtain ⟨o2, ho2, hid2⟩ := List.mem_map.mp this
  rw [hnext, ← hid2]
  exact hlt o2 ho2

/-- Inserting a customer touches neither the orders table nor its serial. -/
lemma insert_customer_orders (db : DB) (nm em : String) :
    (insert_customer db nm em).1.orders = db.orders ∧
    (insert_customer db nm em).1.nextOrderId = db.nextOrderId := by
  rw [insert_customer]
  split <;> exact ⟨rfl, rfl⟩

/-- Dispatching any one operation preserves well-formedness. -/
lemma WFdb_runOperation (db : DB) (inp : TickInput) (h : WFdb db) :
    WFdb (runOperation db inp) := by
  rw [runOperation]
  cases chooseOperation inp.opDraw with
  | insert_order =>
    cases get_random_customer_id db inp.custPick with
    | some cid =>
      show WFdb (if cid ≠ 0 then
        (insert_order db cid inp.amountRaw inp.statusPick inp.now).1 else db)
      by_cases h0 : cid ≠ 0
      · rw [if_pos h0]
        exact WFdb_insert_order db cid inp.amountRaw inp.statusPick inp.now h
      · rw [if_neg h0]
        exact h
    | none => exact h
  | update_order =>
    exact WFdb_update_random_order db inp.orderPick inp.newStatusPick inp.now h
  | insert_customer =>
    show WFdb (insert_customer db inp.custName inp.custEmail).1
    obtain ⟨h1, h2⟩ := insert_customer_orders db inp.custName inp.custEmail
    constructor
    · rw [h1]
      exact h.1
    · intro o ho
      rw [h2]
      exact h.2 o (h1 ▸ ho)

/-- A whole tick preserves well-formedness. -/
lemma WFdb_tick (s : LoopState) (inp : TickInput) (h : WFdb s.db) :
    WFdb (tick s inp).db := by
  rw [tick]
  split
  · exact h
  · exact WFdb_runOperation s.db inp h

/-- A non-updatable (delivered or cancelled) order survives any single
operation untouched. -/
lemma terminal_runOperation (db : DB) (inp : TickInput) (o : Order)
    (hwf : WFdb db) (ho : o ∈ db.orders) (ht : updatableStatus o.status = false) :
    o ∈ (runOperation db inp).orders := by
  rw [runOperation]
  cases chooseOperation inp.opDraw with
  | insert_order =>
    cases get_random_customer_id db inp.custPick with
    | some cid =>
      show o ∈ (if cid ≠ 0 then
        (insert_order db cid inp.amountRaw inp.statusPick inp.now).1 else db).orders
      by_cases h0 : cid ≠ 0
      · rw [if_pos h0]
        exact List.mem_append_left _ ho
      · rw [if_neg h0]
        exact ho
    | none => exact ho
  | update_order =>
    show o ∈ (update_random_order db inp.orderPick inp.newStatusPick inp.now).1.orders
    by_cases hlen :
        (db.orders.filter (fun x => updatableStatus x.status)).length = 0
    · rw [update_random_order, dif_pos hlen]
      exact ho
    · rw [update_random_order, dif_neg hlen]
      set sel := (db.orders.filter (fun x => updatableStatus x.status)).get
        ⟨inp.orderPick % (db.orders.filter (fun x => updatableStatus x.status)).length,
         Nat.mod_lt _ (Nat.pos_of_ne_zero hlen)⟩ with hseldef
      have hselmem : sel ∈ db.orders.filter (fun x => updatableStatus x.status) :=
        List.get_mem _ _ _
      have hsel := List.mem_filter.mp hselmem
      have hneq : o.id ≠ sel.id := by
        intro hid
        have : o = sel := List.inj_on_of_nodup_map hwf.1 ho hsel.1 hid
        rw [this] at ht
        rw [ht] at hsel
        simpa using hsel.2
      exact List.mem_map.mpr ⟨o, ho, if_neg hneq⟩
  | insert_customer =>
    show o ∈ (insert_customer db inp.custName inp.custEmail).1.orders
    rw [(insert_customer_orders db inp.custName inp.custEmail).1]
    exact ho

/-- A non-updatable order survives a whole tick untouched. -/
lemma terminal_tick (s : LoopState) (inp : TickInput) (o : Order)
    (hwf : WFdb s.db) (ho : o ∈ s.db.orders)
    (ht : updatableStatus o.status = false) :
    o ∈ (tick s inp).db.orders := by
  rw [tick]
  split
  · exact ho
  · exact terminal_runOperation s.db inp o hwf ho ht

/-- Claim C5: in a well-formed state, an order whose status is delivered or
cancelled is never touched again: after any run of the loop the very same row
is still present, and it is the only row bearing its id, so its status never
changes — delivered and cancelled are terminal. -/
theorem terminal_status_stable (s : LoopState) (inps : List TickInput) (o : Order)
    (hwf : WFdb s.db) (ho : o ∈ s.db.orders)
    (ht : o.status = OrderStatus.delivered ∨ o.status = OrderStatus.cancelled) :
    o ∈ (runTicks s inps).db.orders ∧
    ∀ o2 ∈ (runTicks s inps).db.orders, o2.id = o.id → o2 = o := by
  have ht2 : updatableStatus o.status = false := by
    rcases ht with h | h <;> rw [h] <;> rfl
  have key : ∀ l t, WFdb t.db → o ∈ t.db.orders →
      o ∈ (runTicks t l).db.orders ∧ WFdb (runTicks t l).db := by
    intro l
    induction l with
    | nil => exact fun t h1 h2 => ⟨h2, h1⟩
    | cons inp rest ih =>
      exact fun t h1 h2 =>
        ih (tick t inp) (WFdb_tick t inp h1) (terminal_tick t inp o h1 h2 ht2)
  obtain ⟨hmem, hwff⟩ := key inps s hwf ho
  exact ⟨hmem, fun o2 ho2 hid => List.inj_on_of_nodup_map hwff.1 ho2 hmem hid⟩

/-- The delivered order of `dbW`, used by the closed witness of C5. -/
def oDel : Order :=
  { id := 2, customer_id := 1, order_date := 3, total_amount := 30,
    status := OrderStatus.delivered, updated_at := none }

/-- Closed witness for C5: the delivered order of `dbW` survives a concrete
committed tick. -/
theorem terminal_status_stable_witness :
    WFdb stateW.db ∧ oDel ∈ stateW.db.orders ∧
    (oDel.status = OrderStatus.delivered ∨ oDel.status = OrderStatus.cancelled) ∧
    oDel ∈ (runTicks stateW [inputW 0 false]).db.orders ∧
    ∀ o2 ∈ (runTicks stateW [inputW 0 false]).db.orders, o2.id = oDel.id → o2 = oDel :=
  ⟨⟨by decide, by decide⟩, by decide, Or.inl rfl,
   terminal_status_stable stateW [inputW 0 false] oDel ⟨by decide, by decide⟩
     (by decide) (Or.inl rfl)⟩

end Generator
